import Mathlib

/-!
Shallow embedding of the ingestion-normalization pipeline of the
ai-news-aggregator repository: the per-source scrapers
(`app/scrapers/anthropic.py`, `app/scrapers/openai.py`,
`app/scrapers/forwardfuture.py`, `app/scrapers/youtube.py`).

UTC instants are modelled as `Int` (seconds since the Unix epoch).
Network fetches and external parse primitives (feedparser, strptime,
the transcript backend) are passed in as function parameters; fallible
Python code is modelled with `Except` / `Option`.
-/

namespace NewsAgg

/-- `datetime.min` (0001-01-01T00:00:00) in seconds since the Unix epoch;
used as the sort key for records without a date
(`x.published_date or datetime.min`). -/
def dtMin : Int := -62135596800

/-- Python exception classes that can escape the modelled code. -/
inductive PyErr where
  | attributeError
  | requestError
deriving DecidableEq

/-- An `entry.category` value from feedparser: may be a string or a list. -/
inductive CategoryField where
  | strField (s : String)
  | listField (l : List String)
deriving DecidableEq

/-- A feedparser entry as consumed by the article scrapers.
`Option` on a field models `hasattr` being false / the value being `None`. -/
structure FeedEntry where
  title : String
  link : String
  description : Option String
  category : Option CategoryField
  published_parsed : Option Int
  updated_parsed : Option Int
  published : Option String
deriving DecidableEq

/-- `AnthropicScraper._parse_published_date` (identical to
`OpenAIScraper._parse_published_date`): try `published_parsed`, then
`updated_parsed`, then re-parse the raw `published` string (the external
feedparser re-parse is the parameter `reparse`); empty string is falsy in
Python so it skips the re-parse.  All failures yield `none`. -/
def parse_published_date (reparse : String → Option Int) (e : FeedEntry) :
    Option Int :=
  match e.published_parsed with
  | some t => some t
  | none =>
    match e.updated_parsed with
    | some t => some t
    | none =>
      match e.published with
      | some s => if s = "" then none else reparse s
      | none => none

/-- The inline time-window decision of the article scrapers
(`anthropic.py` lines 122-131, same in `openai.py` / `forwardfuture.py`):
a date more than one day in the future is kept; a date older than the
cutoff is dropped; anything else is kept. -/
def timeWindowKeep (now cutoff d : Int) : Bool :=
  if d > now + 86400 then true
  else if d < cutoff then false
  else true

/-- Category extraction in `AnthropicScraper.get_articles`: first element of
a non-empty list, the string itself, otherwise `""`. -/
def extractCategory : Option CategoryField → String
  | some (.listField (c :: _)) => c
  | some (.listField []) => ""
  | some (.strField s) => s
  | none => ""

/-- `seen_urls` deduplication loop: keep an element only if its key has not
been seen before. -/
def dedupGo (key : α → String) : List String → List α → List α
  | _, [] => []
  | seen, a :: rest =>
    if key a ∈ seen then dedupGo key seen rest
    else a :: dedupGo key (key a :: seen) rest

/-- URL-based deduplication (`anthropic.py` lines 179-185), first occurrence
wins. -/
def dedupByKey (key : α → String) (l : List α) : List α := dedupGo key [] l

/-- Stable insertion of an element into a sorted list: the element goes
before the first position whose head it is `le`-related to, so an
element earlier in the original list stays before later ties. -/
def insertD (le : α → α → Bool) (a : α) : List α → List α
  | [] => [a]
  | b :: l => if le a b then a :: b :: l else b :: insertD le a l

/-- Stable sort by a boolean comparator (insertion sort).  Python's
`list.sort` is a stable sort; any two stable sorts under the same total
preorder agree, so this models it faithfully. -/
def sortD (le : α → α → Bool) : List α → List α
  | [] => []
  | a :: l => insertD le a (sortD le l)

/-- The sort shared by the article scrapers:
`sort(key=lambda x: x.published_date or datetime.min, reverse=True)`.
Python's sort is stable; `reverse=True` gives a stable descending sort. -/
def sortByDateDesc (key : α → Option Int) (l : List α) : List α :=
  sortD (fun a b => decide ((key b).getD dtMin ≤ (key a).getD dtMin)) l

/-- Model for an Anthropic blog article (`AnthropicArticle`). -/
structure AnthropicArticle where
  title : String
  url : String
  published_date : Option Int
  description : String
  category : String
  source_feed : String
deriving DecidableEq

/-- `AnthropicScraper.RSS_FEEDS`. -/
def ANTHROPIC_RSS_FEEDS : List (String × String) :=
  [("news", "https://raw.githubusercontent.com/Olshansk/rss-feeds/main/feeds/feed_anthropic_news.xml"),
   ("engineering", "https://raw.githubusercontent.com/Olshansk/rss-feeds/main/feeds/feed_anthropic_engineering.xml"),
   ("research", "https://raw.githubusercontent.com/Olshansk/rss-feeds/main/feeds/feed_anthropic_research.xml")]

/-- Build an `AnthropicArticle` from a feed entry. -/
def mkAnthropicArticle (feedName : String) (e : FeedEntry) (pd : Option Int) :
    AnthropicArticle :=
  { title := e.title
    url := e.link
    published_date := pd
    description := e.description.getD ""
    category := extractCategory e.category
    source_feed := feedName }

/-- The entries a single Anthropic feed contributes: unknown feed names are
skipped, and a fetch/parse failure is caught per feed (`except` with
`continue`), contributing nothing. -/
def anthropicFeedEntries (fetchFeed : String → Except PyErr (List FeedEntry))
    (feedName : String) : List FeedEntry :=
  match ANTHROPIC_RSS_FEEDS.lookup feedName with
  | none => []
  | some url =>
    match fetchFeed url with
    | .ok entries => entries
    | .error _ => []

/-- The dated articles a feed's entries contribute, in feed order. -/
def anthropicDated (reparse : String → Option Int) (now cutoff : Int)
    (feedName : String) (entries : List FeedEntry) : List AnthropicArticle :=
  entries.filterMap fun e =>
    match parse_published_date reparse e with
    | some d =>
      if timeWindowKeep now cutoff d then
        some (mkAnthropicArticle feedName e (some d))
      else none
    | none => none

/-- The dateless entries a feed contributes (paired with the feed name), in
feed order. -/
def anthropicDateless (reparse : String → Option Int) (feedName : String)
    (entries : List FeedEntry) : List (String × FeedEntry) :=
  (entries.filter fun e => (parse_published_date reparse e).isNone).map
    fun e => (feedName, e)

/-- `AnthropicScraper.get_articles`: per-feed fetch with per-feed error
isolation, time-window filter, dateless records capped at
`max_articles_without_date`, URL dedup (first wins), stable descending
sort by date.  The Python loop appends dated articles and dateless
entries to two independent lists, which is rendered here as two
`flatMap`s over the feeds. -/
def anthropic_get_articles (reparse : String → Option Int)
    (fetchFeed : String → Except PyErr (List FeedEntry))
    (now : Int) (hours : Nat) (feeds : Option (List String))
    (max_articles_without_date : Nat) : Except PyErr (List AnthropicArticle) :=
  let feedNames := feeds.getD (ANTHROPIC_RSS_FEEDS.map Prod.fst)
  let cutoff := now - 3600 * hours
  let dated := feedNames.flatMap fun n =>
    anthropicDated reparse now cutoff n (anthropicFeedEntries fetchFeed n)
  let noDate := feedNames.flatMap fun n =>
    anthropicDateless reparse n (anthropicFeedEntries fetchFeed n)
  let datelessArts := (noDate.take max_articles_without_date).map fun p =>
    mkAnthropicArticle p.1 p.2 none
  .ok (sortByDateDesc (fun a => a.published_date)
    (dedupByKey (fun a => a.url) (dated ++ datelessArts)))

/-- Model for an OpenAI blog article (`OpenAIArticle`). -/
structure OpenAIArticle where
  title : String
  url : String
  published_date : Option Int
  description : String
deriving DecidableEq

/-- Build an `OpenAIArticle` from a feed entry. -/
def mkOpenAIArticle (e : FeedEntry) (pd : Option Int) : OpenAIArticle :=
  { title := e.title
    url := e.link
    published_date := pd
    description := e.description.getD "" }

/-- `OpenAIScraper.get_articles`.  Note that `self.fetch_rss_feed()` is
called OUTSIDE any `try`/`except`, so a transport failure propagates to
the caller (`.error`).  There is no URL deduplication in this scraper. -/
def openai_get_articles (reparse : String → Option Int)
    (fetchFeed : Except PyErr (List FeedEntry)) (now : Int) (hours : Nat)
    (max_articles_without_date : Nat) : Except PyErr (List OpenAIArticle) :=
  match fetchFeed with
  | .error e => .error e
  | .ok entries =>
    let cutoff := now - 3600 * hours
    let dated := entries.filterMap fun e =>
      match parse_published_date reparse e with
      | some d =>
        if timeWindowKeep now cutoff d then some (mkOpenAIArticle e (some d))
        else none
      | none => none
    let noDate := entries.filter fun e =>
      (parse_published_date reparse e).isNone
    .ok (sortByDateDesc (fun a => a.published_date)
      (dated ++ (noDate.take max_articles_without_date).map
        fun e => mkOpenAIArticle e none))

/-- Model for a ForwardFuture.ai article (`ForwardFutureArticle`). -/
structure ForwardFutureArticle where
  title : String
  url : String
  published_date : Option Int
  description : String
deriving DecidableEq

/-- A `<url>` element of the sitemap.  The outer `Option` models a missing
child element (`find` returning `None`), the inner one a `None` text. -/
structure SitemapEntry where
  loc : Option (Option String)
  lastmod : Option (Option String)
deriving DecidableEq

/-- Prefix test on character lists (cases on the pattern first so that an
empty pattern is a prefix of anything without inspecting the target). -/
def isPrefChars : List Char → List Char → Bool
  | [], _ => true
  | _ :: _, [] => false
  | a :: as, b :: bs => a == b && isPrefChars as bs

/-- Substring containment, Python's `in` on strings. -/
def containsSub (pat : List Char) : List Char → Bool
  | [] => pat.isEmpty
  | c :: cs => isPrefChars pat (c :: cs) || containsSub pat cs

/-- The path-segment marker `'/p/'` identifying article pages. -/
def pSeg : List Char := ['/', 'p', '/']

/-- The text after the last (left-to-right, non-overlapping) occurrence of
`/p/`, i.e. `url.split('/p/')[-1]`. -/
def afterLastPSeg : List Char → List Char
  | [] => []
  | c :: cs =>
    if isPrefChars pSeg (c :: cs) then
      let rest := cs.drop 2
      if containsSub pSeg rest then afterLastPSeg rest else rest
    else afterLastPSeg cs
termination_by l => l.length
decreasing_by
  · simp only [List.length_cons, List.length_drop]
    omega
  · simp only [List.length_cons]
    omega

/-- Python's `str.title()` restricted to its behaviour on ASCII letters:
a cased character following a non-cased one is uppercased, any other
cased character is lowercased. -/
def pyTitleChars : Bool → List Char → List Char
  | _, [] => []
  | prevCased, c :: cs =>
    (if c.isAlpha then (if prevCased then c.toLower else c.toUpper) else c) ::
      pyTitleChars c.isAlpha cs

/-- `ForwardFutureScraper._extract_title_from_url`: slug-case the text after
the last `/p/` (hyphens to spaces, then `str.title()`); URLs without `/p/`
are returned unchanged. -/
def extract_title_from_url (u : String) : String :=
  if containsSub pSeg u.data then
    String.mk (pyTitleChars false
      ((afterLastPSeg u.data).map fun c => if c = '-' then ' ' else c))
  else u

/-- The `published_date` local of the ForwardFuture loop: parse `lastmod`
text when the element exists and its text is truthy. -/
def ffLastmodDate (ymd : String → Option Int) (entry : SitemapEntry) :
    Option Int :=
  match entry.lastmod with
  | some (some s) => if s = "" then none else ymd s
  | _ => none

/-- The per-entry outcome of the ForwardFuture sitemap loop: skipped,
a dated article, or a dateless URL held out for the cap. -/
def ffClassify (ymd : String → Option Int) (now cutoff : Int)
    (entry : SitemapEntry) : Option (ForwardFutureArticle ⊕ String) :=
  match entry.loc with
  | none => none
  | some none => none
  | some (some u) =>
    if u = "" then none
    else if containsSub pSeg u.data then
      match ffLastmodDate ymd entry with
      | some d =>
        if timeWindowKeep now cutoff d then
          some (.inl { title := extract_title_from_url u, url := u,
                       published_date := some d, description := "" })
        else none
      | none => some (.inr u)
    else none

/-- `ForwardFutureScraper.get_articles`: the whole fetch/parse loop sits in
one `try`; on failure the function returns `[]` (never raises).  Dated
in-window articles come first in document order, then the first
`max_articles_without_date` dateless URLs, then the stable descending
sort. -/
def forwardfuture_get_articles (ymd : String → Option Int)
    (fetchSitemap : Except PyErr (List SitemapEntry)) (now : Int)
    (hours : Nat) (max_articles_without_date : Nat) :
    Except PyErr (List ForwardFutureArticle) :=
  match fetchSitemap with
  | .error _ => .ok []
  | .ok entries =>
    let cutoff := now - 3600 * hours
    let dated := entries.filterMap fun e =>
      match ffClassify ymd now cutoff e with
      | some (.inl a) => some a
      | _ => none
    let noDate := entries.filterMap fun e =>
      match ffClassify ymd now cutoff e with
      | some (.inr u) => some u
      | _ => none
    .ok (sortByDateDesc (fun a => a.published_date)
      (dated ++ (noDate.take max_articles_without_date).map fun u =>
        { title := extract_title_from_url u, url := u,
          published_date := none, description := "" }))

/-- The character class `[a-zA-Z0-9_-]` used by the YouTube regexes. -/
def isIdChar (c : Char) : Bool := c.isAlphanum || c = '_' || c = '-'

/-- `re.match(r'^UC[a-zA-Z0-9_-]{22}$', s)`: the canonical channel-id
shape. -/
def isCanonicalId (s : String) : Bool :=
  match s.data with
  | 'U' :: 'C' :: rest => rest.length == 22 && rest.all isIdChar
  | _ => false

/-- `re.search(pat ++ '(good+)', s)`: scan left to right for the first
position where the literal pattern `pat` is followed by at least one
`good` character; capture the maximal run of `good` characters. -/
def searchCapture (pat : List Char) (good : Char → Bool) :
    List Char → Option (List Char)
  | [] => none
  | c :: cs =>
    if isPrefChars pat (c :: cs) then
      let run := ((c :: cs).drop pat.length).takeWhile good
      if run.isEmpty then searchCapture pat good cs else some run
    else searchCapture pat good cs

/-- `re.search(pat ++ '(good+)' ++ term, s)`: like `searchCapture` but the
captured run must be followed by the literal terminator character
(`([^"]+)"` in the handle-resolution regexes). -/
def searchCaptureTerm (pat : List Char) (good : Char → Bool) (term : Char) :
    List Char → Option (List Char)
  | [] => none
  | c :: cs =>
    if isPrefChars pat (c :: cs) then
      let rest := (c :: cs).drop pat.length
      let run := rest.takeWhile good
      if run.isEmpty = false && (rest.drop run.length).head? = some term then
        some run
      else searchCaptureTerm pat good term cs
    else searchCaptureTerm pat good term cs

/-- Python's `s.lstrip('@')`. -/
def stripLeadingAt (s : String) : String :=
  String.mk (s.data.dropWhile fun c => c = '@')

/-- `YouTubeScraper._resolve_handle_to_channel_id`: fetch the handle's
public page (`fetchPage`, keyed by the page URL) and try the two
embedding regexes `"channelId":"([^"]+)"` and
`<link rel="canonical" href="https://www.youtube.com/channel/([^"]+)"`;
any fetch error or absence of both patterns yields `none`. -/
def resolve_handle_to_channel_id (fetchPage : String → Except Unit String)
    (handle : String) : Option String :=
  match fetchPage ("https://www.youtube.com/@" ++ handle) with
  | .error _ => none
  | .ok text =>
    match searchCaptureTerm ("\"channelId\":\"".data) (fun c => c ≠ '"') '"'
        text.data with
    | some cap => some (String.mk cap)
    | none =>
      match searchCaptureTerm
          ("<link rel=\"canonical\" href=\"https://www.youtube.com/channel/".data)
          (fun c => c ≠ '"') '"' text.data with
      | some cap => some (String.mk cap)
      | none => none

/-- The handle branch of `extract_channel_id` (reached when the identifier
contains `'@'`): for handle URLs the handle is taken from
`re.search(r'@([a-zA-Z0-9_-]+)', s).group(1)` — whose match object is
`None` when no id-character follows any `'@'`, making `.group(1)` raise
`AttributeError`. -/
def extractAtBranch (fetchPage : String → Except Unit String) (s : String) :
    Except PyErr (Option String) :=
  if s.data.contains '@' then
    if containsSub "youtube.com/@".data s.data then
      match searchCapture ['@'] isIdChar s.data with
      | some cap =>
        .ok (resolve_handle_to_channel_id fetchPage (String.mk cap))
      | none => .error .attributeError
    else .ok (resolve_handle_to_channel_id fetchPage (stripLeadingAt s))
  else .ok none

/-- `YouTubeScraper.extract_channel_id`: canonical ids pass through
unchanged; channel URLs have the id extracted by
`re.search(r'/channel/([a-zA-Z0-9_-]+)', s)` (falling through to the
handle branch when that regex fails); identifiers containing `'@'` go
through handle resolution; anything else yields `none`. -/
def extract_channel_id (fetchPage : String → Except Unit String)
    (s : String) : Except PyErr (Option String) :=
  if isCanonicalId s then .ok (some s)
  else if containsSub "youtube.com/channel/".data s.data then
    match searchCapture "/channel/".data isIdChar s.data with
    | some cap => .ok (some (String.mk cap))
    | none => extractAtBranch fetchPage s
  else extractAtBranch fetchPage s

/-- Model for a video transcript (`Transcript`). -/
structure Transcript where
  text : String
deriving DecidableEq

/-- Model for a YouTube channel video (`ChannelVideo`). -/
structure ChannelVideo where
  title : String
  link : String
  video_id : Option String
  published_date : Option Int
  description : String
  channel_id : String
  transcript : Option Transcript
deriving DecidableEq

/-- The date-like value feedparser hands `_parse_published_date`: either an
already-decoded time tuple (a `struct_time`, modelled by the UTC instant
the code derives from it) or a raw date string. -/
inductive DateInput where
  | structTime (t : Int)
  | rawString (s : String)
deriving DecidableEq

/-- `YouTubeScraper._parse_published_date`: a `struct_time` is converted
directly (assumed UTC, `struct_time` has no `tzinfo` attribute); a string
is tried with the RFC-822 `strptime` format first, then ISO-8601 with a
trailing `Z` accepted; any remaining failure yields `none`.  The two
external string parsers are the parameters `rfc822` and `iso`. -/
def yt_parse_published_date (rfc822 iso : String → Option Int) :
    DateInput → Option Int
  | .structTime t => some t
  | .rawString s =>
    match rfc822 s with
    | some t => some t
    | none => iso s

/-- A feedparser entry of a YouTube channel feed. -/
structure YtEntry where
  title : String
  link : String
  yt_videoid : Option String
  published : DateInput
  summary : Option String
deriving DecidableEq

/-- `re.search(r'[?&]v=([a-zA-Z0-9_-]+)', link)`: extract the watch-URL
query parameter. -/
def searchVidParam : List Char → Option (List Char)
  | [] => none
  | c :: cs =>
    if c = '?' || c = '&' then
      match cs with
      | 'v' :: '=' :: d :: rest =>
        if isIdChar d then some (d :: rest.takeWhile isIdChar)
        else searchVidParam cs
      | _ => searchVidParam cs
    else searchVidParam cs

/-- `YouTubeScraper.RSS_FEED_BASE_URL`. -/
def RSS_FEED_BASE_URL : String :=
  "https://www.youtube.com/feeds/videos.xml?channel_id="

/-- Build a `ChannelVideo` from a feed entry: `yt_videoid` is preferred,
else the id is parsed out of the watch URL. -/
def mkChannelVideo (rfc822 iso : String → Option Int) (channel_id : String)
    (e : YtEntry) : ChannelVideo :=
  { title := e.title
    link := e.link
    video_id :=
      match e.yt_videoid with
      | some v => some v
      | none => (searchVidParam e.link.data).map String.mk
    published_date := yt_parse_published_date rfc822 iso e.published
    description := e.summary.getD ""
    channel_id := channel_id
    transcript := none }

/-- `YouTubeScraper.fetch_videos_from_rss`: the whole fetch/parse sits in a
`try` whose handlers all return `[]`; a parse failure with no entries
(`feed.bozo`) raises into the same handlers. -/
def fetch_videos_from_rss (rfc822 iso : String → Option Int)
    (fetchFeed : String → Except PyErr (List YtEntry))
    (channel_id : String) : List ChannelVideo :=
  match fetchFeed (RSS_FEED_BASE_URL ++ channel_id) with
  | .error _ => []
  | .ok entries => entries.map (mkChannelVideo rfc822 iso channel_id)

/-- The per-video keep decision of `filter_videos_by_time`: only videos
with a known `published_date` at or after `now - hours` are kept;
dateless videos are dropped. -/
def ytKeep (now : Int) (hours : Nat) (v : ChannelVideo) : Bool :=
  match v.published_date with
  | some d => decide (now - 3600 * hours ≤ d)
  | none => false

/-- `YouTubeScraper.filter_videos_by_time`. -/
def filter_videos_by_time (videos : List ChannelVideo) (now : Int)
    (hours : Nat) : List ChannelVideo :=
  videos.filter (ytKeep now hours)

/-- A transcript track of the external transcript backend: language code,
manual/auto-generated kind, and the result of fetching its ordered text
segments (`none` models a fetch error). -/
structure TTrack where
  language : String
  is_generated : Bool
  fetchResult : Option (List String)
deriving DecidableEq

/-- The track listing the backend returns for a video: the backend keeps
manually created and auto-generated tracks separately and iterates the
manual ones first. -/
structure TranscriptList where
  manual : List TTrack
  generated : List TTrack
deriving DecidableEq

/-- Lookup of a language code in one track dictionary. -/
def findLang (tracks : List TTrack) (lang : String) : Option TTrack :=
  tracks.find? fun t => t.language == lang

/-- The backend's `find_transcript`: for each requested language in order,
a manual track is preferred over a generated one. -/
def find_transcript (tl : TranscriptList) : List String → Option TTrack
  | [] => none
  | l :: rest =>
    match findLang tl.manual l with
    | some t => some t
    | none =>
      match findLang tl.generated l with
      | some t => some t
      | none => find_transcript tl rest

/-- The backend's `find_manually_created_transcript`. -/
def find_manually_created (tl : TranscriptList) (langs : List String) :
    Option TTrack :=
  langs.findSome? (findLang tl.manual)

/-- The backend's `find_generated_transcript`. -/
def find_generated (tl : TranscriptList) (langs : List String) :
    Option TTrack :=
  langs.findSome? (findLang tl.generated)

/-- `list(transcript_list)`: manual tracks first, then generated ones. -/
def listAllTracks (tl : TranscriptList) : List TTrack :=
  tl.manual ++ tl.generated

/-- `' '.join(segments)`. -/
def joinSpace (l : List String) : String := String.intercalate " " l

/-- `YouTubeScraper.get_video_transcript`: listing failure
(`TranscriptsDisabled` etc.) yields `none`; otherwise try, in order,
(1) `find_transcript([lang])` per preferred language, (2)
`find_manually_created_transcript`, (3) `find_generated_transcript`,
(4) the first listed track of any kind; a missing track or a fetch
error yields `none`, else the segments joined with single spaces. -/
def get_video_transcript (listResult : Except Unit TranscriptList)
    (langs : List String) : Option Transcript :=
  match listResult with
  | .error _ => none
  | .ok tl =>
    let step1 := langs.findSome? fun l => find_transcript tl [l]
    let chosen :=
      match step1 with
      | some t => some t
      | none =>
        match find_manually_created tl langs with
        | some t => some t
        | none =>
          match find_generated tl langs with
          | some t => some t
          | none => (listAllTracks tl).head?
    match chosen with
    | none => none
    | some t =>
      match t.fetchResult with
      | some segs => some ⟨joinSpace segs⟩
      | none => none

/-- The transcript-attachment pass of `get_latest_videos`: videos with a
truthy `video_id` get a fresh record via `model_copy` with only the
`transcript` field updated; others pass through unchanged. -/
def attachTranscripts (getT : String → Option Transcript)
    (videos : List ChannelVideo) : List ChannelVideo :=
  videos.map fun v =>
    match v.video_id with
    | some vid =>
      if vid = "" then v else { v with transcript := getT vid }
    | none => v

/-- `YouTubeScraper.get_latest_videos`: resolve the channel id (an
`AttributeError` from `extract_channel_id` propagates — nothing catches
it here), return `[]` on a falsy id, fetch the feed, filter by time, and
optionally attach transcripts (preferred languages default to
`['en']`). -/
def get_latest_videos (fetchPage : String → Except Unit String)
    (fetchFeed : String → Except PyErr (List YtEntry))
    (rfc822 iso : String → Option Int)
    (listBackend : String → Except Unit TranscriptList)
    (now : Int) (channel_identifier : String) (hours : Nat)
    (include_transcripts : Bool) : Except PyErr (List ChannelVideo) :=
  match extract_channel_id fetchPage channel_identifier with
  | .error e => .error e
  | .ok none => .ok []
  | .ok (some cid) =>
    if cid = "" then .ok []
    else
      let videos := fetch_videos_from_rss rfc822 iso fetchFeed cid
      let recent := filter_videos_by_time videos now hours
      if include_transcripts then
        .ok (attachTranscripts
          (fun vid => get_video_transcript (listBackend vid) ["en"]) recent)
      else .ok recent

instance exceptDecEq [DecidableEq ε] [DecidableEq α] : DecidableEq (Except ε α)
  | .ok a, .ok b =>
    if h : a = b then .isTrue (by rw [h])
    else .isFalse fun he => h (Except.ok.inj he)
  | .error a, .error b =>
    if h : a = b then .isTrue (by rw [h])
    else .isFalse fun he => h (Except.error.inj he)
  | .ok _, .error _ => .isFalse Except.noConfusion
  | .error _, .ok _ => .isFalse Except.noConfusion

/-!  ## Helper lemmas  -/

theorem insertD_perm (le : α → α → Bool) (a : α) (l : List α) :
    (insertD le a l).Perm (a :: l) := by
  induction l with
  | nil => exact List.Perm.refl _
  | cons b t ih =>
    rw [insertD]
    split
    · exact List.Perm.refl _
    · exact (List.Perm.cons b ih).trans (List.Perm.swap a b t)

theorem sortD_perm (le : α → α → Bool) (l : List α) :
    (sortD le l).Perm l := by
  induction l with
  | nil => exact List.Perm.refl _
  | cons a t ih =>
    exact (insertD_perm le a (sortD le t)).trans (List.Perm.cons a ih)

theorem mem_insertD {le : α → α → Bool} {a x : α} {l : List α} :
    x ∈ insertD le a l ↔ x = a ∨ x ∈ l := by
  rw [(insertD_perm le a l).mem_iff, List.mem_cons]

theorem pairwise_insertD {le : α → α → Bool}
    (htr : ∀ a b c, le a b = true → le b c = true → le a c = true)
    (hto : ∀ a b, le a b = true ∨ le b a = true) (a : α) :
    ∀ {l : List α}, l.Pairwise (fun x y => le x y = true) →
      (insertD le a l).Pairwise (fun x y => le x y = true)
  | [], _ => List.Pairwise.cons (by simp) List.Pairwise.nil
  | b :: t, h => by
    rw [insertD]
    split
    case isTrue hab =>
      refine List.Pairwise.cons ?_ h
      intro x hx
      rcases List.mem_cons.mp hx with rfl | hx
      · exact hab
      · exact htr a b x hab (List.rel_of_pairwise_cons h hx)
    case isFalse hab =>
      refine List.Pairwise.cons ?_ (pairwise_insertD htr hto a h.tail)
      intro x hx
      rcases mem_insertD.mp hx with rfl | hx
      · rcases hto x b with hxb | hbx
        · exact absurd hxb hab
        · exact hbx
      · exact List.rel_of_pairwise_cons h hx

theorem pairwise_sortD {le : α → α → Bool}
    (htr : ∀ a b c, le a b = true → le b c = true → le a c = true)
    (hto : ∀ a b, le a b = true ∨ le b a = true) :
    ∀ (l : List α), (sortD le l).Pairwise (fun x y => le x y = true)
  | [] => List.Pairwise.nil
  | a :: t => pairwise_insertD htr hto a (pairwise_sortD htr hto t)

theorem sortByDateDesc_sorted (key : α → Option Int) (l : List α) :
    (sortByDateDesc key l).Pairwise
      (fun a b => (key b).getD dtMin ≤ (key a).getD dtMin) := by
  rw [sortByDateDesc]
  refine List.Pairwise.imp (fun h => of_decide_eq_true h)
    (pairwise_sortD ?_ ?_ l)
  · intro a b c hab hbc
    have h1 := of_decide_eq_true hab
    have h2 := of_decide_eq_true hbc
    exact decide_eq_true (le_trans h2 h1)
  · intro a b
    rcases le_total ((key b).getD dtMin) ((key a).getD dtMin) with h | h
    · exact Or.inl (decide_eq_true h)
    · exact Or.inr (decide_eq_true h)

theorem sortByDateDesc_perm (key : α → Option Int) (l : List α) :
    (sortByDateDesc key l).Perm l :=
  sortD_perm _ l

theorem insertD_none_implies {key : α → Option Int} (x : α) :
    ∀ {l : List α},
      (∀ z ∈ x :: l, ∀ d, key z = some d → dtMin ≤ d) →
      l.Pairwise (fun a b => key a = none → key b = none) →
      (∀ z ∈ l, key x = none → key z = none) →
      (insertD (fun a b =>
          decide ((key b).getD dtMin ≤ (key a).getD dtMin)) x l).Pairwise
        (fun a b => key a = none → key b = none)
  | [], _, _, _ => List.Pairwise.cons (by simp) List.Pairwise.nil
  | b :: t, hb, hp, hxz => by
    rw [insertD]
    split
    case isTrue hle =>
      exact List.Pairwise.cons hxz hp
    case isFalse hle =>
      have hb2 : ∀ z ∈ x :: t, ∀ d, key z = some d → dtMin ≤ d := by
        intro z hz d hkd
        rcases List.mem_cons.mp hz with rfl | hz2
        · exact hb z (List.mem_cons_self _ _) d hkd
        · exact hb z
            (List.mem_cons_of_mem _ (List.mem_cons_of_mem _ hz2)) d hkd
      have hrec := insertD_none_implies x hb2 (List.pairwise_cons.mp hp).2
        (fun z hz => hxz z (List.mem_cons_of_mem _ hz))
      refine List.Pairwise.cons ?_ hrec
      intro z hz
      rcases mem_insertD.mp hz with rfl | hz2
      · intro hbn
        exfalso
        apply hle
        rw [hbn]
        cases hkx : key z with
        | none =>
          exact decide_eq_true le_rfl
        | some d =>
          exact decide_eq_true (hb z (List.mem_cons_self _ _) d hkx)
      · exact List.rel_of_pairwise_cons hp hz2

theorem sortD_none_implies {key : α → Option Int} :
    ∀ {l : List α},
      (∀ z ∈ l, ∀ d, key z = some d → dtMin ≤ d) →
      l.Pairwise (fun a b => key a = none → key b = none) →
      (sortD (fun a b =>
          decide ((key b).getD dtMin ≤ (key a).getD dtMin)) l).Pairwise
        (fun a b => key a = none → key b = none)
  | [], _, _ => List.Pairwise.nil
  | x :: t, hb, hp => by
    rw [sortD]
    have hps := sortD_none_implies
      (fun z hz => hb z (List.mem_cons_of_mem _ hz))
      (List.pairwise_cons.mp hp).2
    have hb2 : ∀ z ∈ x :: sortD (fun a b =>
        decide ((key b).getD dtMin ≤ (key a).getD dtMin)) t,
        ∀ d, key z = some d → dtMin ≤ d := by
      intro z hz d hkd
      rcases List.mem_cons.mp hz with rfl | hz2
      · exact hb z (List.mem_cons_self _ _) d hkd
      · exact hb z
          (List.mem_cons_of_mem _ ((sortD_perm _ t).mem_iff.mp hz2)) d hkd
    have hxz : ∀ z ∈ sortD (fun a b =>
        decide ((key b).getD dtMin ≤ (key a).getD dtMin)) t,
        key x = none → key z = none := by
      intro z hz
      exact (List.pairwise_cons.mp hp).1 z ((sortD_perm _ t).mem_iff.mp hz)
    exact insertD_none_implies x hb2 hps hxz

theorem sortByDateDesc_none_after_dated (key : α → Option Int) (l : List α)
    (hb : ∀ a ∈ l, ∀ d, key a = some d → dtMin ≤ d)
    (hp : l.Pairwise fun a b => key a = none → key b = none) :
    (sortByDateDesc key l).Pairwise
      (fun a b => key a = none → key b = none) :=
  sortD_none_implies hb hp

theorem takeWhile_all {p : α → Bool} :
    ∀ {l : List α}, l.all p = true → l.takeWhile p = l
  | [], _ => rfl
  | a :: l, h => by
    simp only [List.all_cons, Bool.and_eq_true] at h
    simp [List.takeWhile_cons, h.1, takeWhile_all h.2]

theorem dedupGo_sublist (key : α → String) :
    ∀ (seen : List String) (l : List α), (dedupGo key seen l).Sublist l
  | _, [] => List.nil_sublist _
  | seen, a :: rest => by
    rw [dedupGo]
    split
    · exact (dedupGo_sublist key seen rest).cons a
    · exact (dedupGo_sublist key (key a :: seen) rest).cons₂ a

theorem dedupByKey_sublist (key : α → String) (l : List α) :
    (dedupByKey key l).Sublist l :=
  dedupGo_sublist key [] l

theorem anthropicDated_published {reparse : String → Option Int}
    {now cut : Int} {n : String} {es : List FeedEntry} {a : AnthropicArticle}
    (h : a ∈ anthropicDated reparse now cut n es) :
    ∃ d, a.published_date = some d := by
  rw [anthropicDated, List.mem_filterMap] at h
  obtain ⟨e, _, hfe⟩ := h
  split at hfe
  · split at hfe
    · obtain rfl := Option.some.inj hfe
      exact ⟨_, rfl⟩
    · exact absurd hfe (by simp)
  · exact absurd hfe (by simp)

theorem ffClassify_inl {ymd : String → Option Int} {now cut : Int}
    {e : SitemapEntry} {a : ForwardFutureArticle}
    (h : ffClassify ymd now cut e = some (.inl a)) :
    ∃ d, a.published_date = some d := by
  rw [ffClassify] at h
  split at h
  · exact absurd h (by simp)
  · exact absurd h (by simp)
  · split at h
    · exact absurd h (by simp)
    · split at h
      · split at h
        · split at h
          · obtain rfl := Sum.inl.inj (Option.some.inj h)
            exact ⟨_, rfl⟩
          · exact absurd h (by simp)
        · exact absurd h (by simp)
      · exact absurd h (by simp)

theorem openaiDated_published {reparse : String → Option Int}
    {now cutoff : Int} {entries : List FeedEntry} {a : OpenAIArticle}
    (h : a ∈ entries.filterMap fun e =>
      match parse_published_date reparse e with
      | some d =>
        if timeWindowKeep now cutoff d then some (mkOpenAIArticle e (some d))
        else none
      | none => none) :
    ∃ d, a.published_date = some d := by
  rw [List.mem_filterMap] at h
  obtain ⟨e, _, hfe⟩ := h
  split at hfe
  · split at hfe
    · obtain rfl := Option.some.inj hfe
      exact ⟨_, rfl⟩
    · exact absurd hfe (by simp)
  · exact absurd hfe (by simp)

theorem ffDated_mem {ymd : String → Option Int} {now cutoff : Int}
    {es : List SitemapEntry} {a : ForwardFutureArticle}
    (h : a ∈ es.filterMap fun e =>
      match ffClassify ymd now cutoff e with
      | some (.inl a) => some a
      | _ => none) :
    ∃ d, a.published_date = some d := by
  rw [List.mem_filterMap] at h
  obtain ⟨e, _, hfe⟩ := h
  have hcl : ffClassify ymd now cutoff e = some (.inl a) := by
    split at hfe
    · obtain rfl := Option.some.inj hfe
      assumption
    · exact absurd hfe (by simp)
  exact ffClassify_inl hcl

theorem pairwise_none_append {key : α → Option Int} {l₁ l₂ : List α}
    (h1 : ∀ a ∈ l₁, ∃ d, key a = some d) (h2 : ∀ a ∈ l₂, key a = none) :
    (l₁ ++ l₂).Pairwise (fun a b => key a = none → key b = none) := by
  rw [List.pairwise_append]
  refine ⟨?_, ?_, ?_⟩
  · refine List.pairwise_of_forall_mem_list ?_
    intro a ha b _ hnone
    obtain ⟨d, hd⟩ := h1 a ha
    rw [hd] at hnone
    exact Option.noConfusion hnone
  · refine List.pairwise_of_forall_mem_list ?_
    intro a _ b hb _
    exact h2 b hb
  · intro a _ b hb _
    exact h2 b hb

/-!  ## Claim theorems  -/

/-- C10: there is an input at the public resolver interface — the handle-URL
marker with nothing after the `'@'` — on which `extract_channel_id`
raises (`re.search(r'@([a-zA-Z0-9_-]+)', s)` returns `None` and
`.group(1)` is called on it, an `AttributeError`) instead of returning
`None`. -/
theorem extract_channel_id_raises_on_bare_handle_url :
    extract_channel_id (fun _ => .error ()) "https://www.youtube.com/@"
      = .error .attributeError := by
  decide

/-- C6: the date resolvers try their candidates in a fixed priority order
and return the first that parses, `none` when all fail, and never
abort the calling adapter: the article-scraper resolver tries
`published_parsed`, then `updated_parsed`, then the re-parsed raw
`published` string; the YouTube resolver takes a pre-parsed time tuple
directly, else tries the RFC-822 parser and then the ISO parser. -/
theorem date_resolver_first_success (reparse : String → Option Int)
    (e : FeedEntry) (rfc822 iso : String → Option Int) :
    (∀ t, e.published_parsed = some t →
      parse_published_date reparse e = some t) ∧
    (e.published_parsed = none → ∀ t, e.updated_parsed = some t →
      parse_published_date reparse e = some t) ∧
    (e.published_parsed = none → e.updated_parsed = none →
      ∀ s t, e.published = some s → s ≠ "" → reparse s = some t →
        parse_published_date reparse e = some t) ∧
    (e.published_parsed = none → e.updated_parsed = none →
      (e.published = none ∨ e.published = some "" ∨
        ∀ s, e.published = some s → reparse s = none) →
      parse_published_date reparse e = none) ∧
    (∀ t, yt_parse_published_date rfc822 iso (.structTime t) = some t) ∧
    (∀ s t, rfc822 s = some t →
      yt_parse_published_date rfc822 iso (.rawString s) = some t) ∧
    (∀ s, rfc822 s = none →
      yt_parse_published_date rfc822 iso (.rawString s) = iso s) := by
  refine ⟨?_, ?_, ?_, ?_, ?_, ?_, ?_⟩
  · intro t h
    simp [parse_published_date, h]
  · intro h1 t h2
    simp [parse_published_date, h1, h2]
  · intro h1 h2 s t hs hne hr
    simp [parse_published_date, h1, h2, hs, hne, hr]
  · intro h1 h2 h3
    rcases h3 with h3 | h3 | h3
    · simp [parse_published_date, h1, h2, h3]
    · simp [parse_published_date, h1, h2, h3]
    · simp only [parse_published_date, h1, h2]
      cases hp : e.published with
      | none => rfl
      | some s => simp [h3 s hp]
  · intro t
    rfl
  · intro s t h
    simp [yt_parse_published_date, h]
  · intro s h
    simp [yt_parse_published_date, h]

/-- Witness for C6 at a concrete entry whose only candidate is
`updated_parsed`. -/
theorem date_resolver_first_success_witness :
    parse_published_date (fun _ => none)
      ⟨"t", "l", none, none, none, some 5, none⟩ = some 5 :=
  (date_resolver_first_success (fun _ => none)
    ⟨"t", "l", none, none, none, some 5, none⟩
    (fun _ => none) (fun _ => none)).2.1 rfl 5 rfl

/-- C5: a dated record is kept by the time-window decision iff its date is
at or after `now - lookback_hours` or more than one day in the future
(the future-suspect case is always included); this holds both for the
article scrapers' inline decision (`timeWindowKeep`) and for membership
in the YouTube `filter_videos_by_time` output. -/
theorem dated_record_kept_iff (now : Int) (hours : Nat) (d : Int)
    (videos : List ChannelVideo) (v : ChannelVideo)
    (hv : v.published_date = some d) :
    (timeWindowKeep now (now - 3600 * hours) d = true ↔
      (now - 3600 * hours ≤ d ∨ now + 86400 < d)) ∧
    (v ∈ filter_videos_by_time videos now hours ↔
      v ∈ videos ∧ (now - 3600 * hours ≤ d ∨ now + 86400 < d)) := by
  constructor
  · simp only [timeWindowKeep]
    split_ifs with h1 h2 <;> simp <;> omega
  · rw [filter_videos_by_time, List.mem_filter]
    have hk : ytKeep now hours v = decide (now - 3600 * hours ≤ d) := by
      rw [ytKeep, hv]
    rw [hk]
    constructor
    · rintro ⟨hm, hd⟩
      exact ⟨hm, Or.inl (of_decide_eq_true hd)⟩
    · rintro ⟨hm, hd | hd⟩
      · exact ⟨hm, decide_eq_true hd⟩
      · refine ⟨hm, decide_eq_true ?_⟩
        omega

/-- Witness for C5 at a concrete in-window video. -/
theorem dated_record_kept_iff_witness :
    ⟨"t", "l", none, some 50, "", "c", none⟩ ∈
      filter_videos_by_time [⟨"t", "l", none, some 50, "", "c", none⟩] 100 24 :=
  ((dated_record_kept_iff 100 24 50 [⟨"t", "l", none, some 50, "", "c", none⟩]
    ⟨"t", "l", none, some 50, "", "c", none⟩ rfl).2).2
    ⟨by simp, Or.inl (by norm_num)⟩

/-- C1 (amended): `AnthropicScraper.get_articles` and
`ForwardFutureScraper.get_articles` never raise — every transport/parse
failure is caught inside them; but `OpenAIScraper.get_articles` calls
its fetch outside any `try` and so propagates a transport failure, and
`YouTubeScraper.get_latest_videos` propagates any exception raised by
`extract_channel_id`. -/
theorem adapter_error_isolation (reparse ymd rfc822 iso : String → Option Int)
    (fetchFeed : String → Except PyErr (List FeedEntry))
    (fetchSitemap : Except PyErr (List SitemapEntry))
    (fetchPage : String → Except Unit String)
    (ytFeed : String → Except PyErr (List YtEntry))
    (listBackend : String → Except Unit TranscriptList)
    (now : Int) (hours cap : Nat) (feeds : Option (List String))
    (er : PyErr) (s : String) (inc : Bool) :
    (∃ l, anthropic_get_articles reparse fetchFeed now hours feeds cap
      = .ok l) ∧
    (∃ l, forwardfuture_get_articles ymd fetchSitemap now hours cap
      = .ok l) ∧
    (openai_get_articles reparse (.error er) now hours cap = .error er) ∧
    (extract_channel_id fetchPage s = .error er →
      get_latest_videos fetchPage ytFeed rfc822 iso listBackend now s hours
        inc = .error er) := by
  refine ⟨⟨_, rfl⟩, ?_, rfl, ?_⟩
  · cases fetchSitemap <;> exact ⟨_, rfl⟩
  · intro h
    rw [get_latest_videos, h]

/-- Witness for C1's final conjunct at the concrete bare handle URL. -/
theorem adapter_error_isolation_witness :
    get_latest_videos (fun _ => .error ()) (fun _ => .error .requestError)
      (fun _ => none) (fun _ => none) (fun _ => .error ()) 0
      "https://www.youtube.com/@" 24 true = .error .attributeError :=
  (adapter_error_isolation (fun _ => none) (fun _ => none) (fun _ => none)
    (fun _ => none) (fun _ => .error .requestError) (.error .requestError)
    (fun _ => .error ()) (fun _ => .error .requestError) (fun _ => .error ())
    0 24 10 none .attributeError "https://www.youtube.com/@" true).2.2.2
    (by decide)

/-- Counterexample for C1 as stated: a failing fetch makes
`OpenAIScraper.get_articles` return the error to its caller rather than
an empty sequence, and `YouTubeScraper.get_latest_videos` raises on the
bare handle URL. -/
theorem openai_propagates_fetch_error :
    openai_get_articles (fun _ => none) (.error .requestError) 0 24 10
      = .error .requestError ∧
    get_latest_videos (fun _ => .error ()) (fun _ => .error .requestError)
      (fun _ => none) (fun _ => none) (fun _ => .error ()) 0
      "https://www.youtube.com/@" 24 false = .error .attributeError := by
  exact ⟨rfl, by decide⟩

/-- C3 (amended): the three article adapters (Anthropic, OpenAI,
ForwardFuture) return sequences sorted non-increasing by
`published_date` with unknown-dated records (whose sort key is
`datetime.min`) after all records dated strictly later than
`datetime.min`; the YouTube channel-feed adapter does NOT sort — its
output preserves feed order (see the counterexample). -/
theorem article_outputs_sorted (reparse ymd : String → Option Int)
    (fetchFeed : String → Except PyErr (List FeedEntry))
    (oaFeed : Except PyErr (List FeedEntry))
    (fetchSitemap : Except PyErr (List SitemapEntry))
    (now : Int) (hours cap : Nat) (feeds : Option (List String)) :
    (∀ l, anthropic_get_articles reparse fetchFeed now hours feeds cap
        = .ok l →
      l.Pairwise (fun a b =>
        (b.published_date).getD dtMin ≤ (a.published_date).getD dtMin) ∧
      ((∀ a ∈ l, ∀ d, a.published_date = some d → dtMin ≤ d) →
        l.Pairwise fun a b =>
          a.published_date = none → b.published_date = none)) ∧
    (∀ l, openai_get_articles reparse oaFeed now hours cap = .ok l →
      l.Pairwise (fun a b =>
        (b.published_date).getD dtMin ≤ (a.published_date).getD dtMin) ∧
      ((∀ a ∈ l, ∀ d, a.published_date = some d → dtMin ≤ d) →
        l.Pairwise fun a b =>
          a.published_date = none → b.published_date = none)) ∧
    (∀ l, forwardfuture_get_articles ymd fetchSitemap now hours cap
        = .ok l →
      l.Pairwise (fun a b =>
        (b.published_date).getD dtMin ≤ (a.published_date).getD dtMin) ∧
      ((∀ a ∈ l, ∀ d, a.published_date = some d → dtMin ≤ d) →
        l.Pairwise fun a b =>
          a.published_date = none → b.published_date = none)) := by
  refine ⟨?_, ?_, ?_⟩
  · intro l h
    rw [anthropic_get_articles] at h
    injection h with h
    subst h
    refine ⟨sortByDateDesc_sorted _ _, fun hmem => ?_⟩
    refine sortByDateDesc_none_after_dated _ _ ?_ ?_
    · intro a ha d hd
      exact hmem a ((sortByDateDesc_perm _ _).mem_iff.mpr ha) d hd
    · refine List.Pairwise.sublist (dedupByKey_sublist _ _)
        (pairwise_none_append ?_ ?_)
      · intro a ha
        obtain ⟨n, _, hmem2⟩ := List.mem_flatMap.mp ha
        exact anthropicDated_published hmem2
      · intro a ha
        obtain ⟨p, _, rfl⟩ := List.mem_map.mp ha
        rfl
  · intro l h
    cases oaFeed with
    | error e => exact absurd h (by rw [openai_get_articles]; simp)
    | ok entries =>
      rw [openai_get_articles] at h
      injection h with h
      subst h
      refine ⟨sortByDateDesc_sorted _ _, fun hmem => ?_⟩
      refine sortByDateDesc_none_after_dated _ _ ?_ ?_
      · intro a ha d hd
        exact hmem a ((sortByDateDesc_perm _ _).mem_iff.mpr ha) d hd
      · refine pairwise_none_append ?_ ?_
        · intro a ha
          exact openaiDated_published ha
        · intro a ha
          obtain ⟨e, _, rfl⟩ := List.mem_map.mp ha
          rfl
  · intro l h
    cases fetchSitemap with
    | error e =>
      rw [forwardfuture_get_articles] at h
      injection h with h
      subst h
      simp
    | ok entries =>
      rw [forwardfuture_get_articles] at h
      injection h with h
      subst h
      refine ⟨sortByDateDesc_sorted _ _, fun hmem => ?_⟩
      refine sortByDateDesc_none_after_dated _ _ ?_ ?_
      · intro a ha d hd
        exact hmem a ((sortByDateDesc_perm _ _).mem_iff.mpr ha) d hd
      · refine pairwise_none_append ?_ ?_
        · intro a ha
          exact ffDated_mem ha
        · intro a ha
          obtain ⟨u, _, rfl⟩ := List.mem_map.mp ha
          rfl

/-- Witness for C3 at a concrete OpenAI run over an empty feed. -/
theorem article_outputs_sorted_witness :
    ([] : List OpenAIArticle).Pairwise (fun a b =>
      (b.published_date).getD dtMin ≤ (a.published_date).getD dtMin) :=
  ((article_outputs_sorted (fun _ => none) (fun _ => none)
    (fun _ => .error .requestError) (.ok []) (.error .requestError)
    0 24 10 none).2.1 [] (by decide)).1

/-- Counterexample for C3 as stated: with a channel feed presenting an
older video before a newer one, `get_latest_videos` returns them in
feed order, which is not non-increasing by `published_date`. -/
theorem youtube_output_not_sorted :
    get_latest_videos (fun _ => .error ())
      (fun _ => .ok [⟨"old", "l1", some "aaa", .structTime 100, none⟩,
                     ⟨"new", "l2", some "bbb", .structTime 200, none⟩])
      (fun _ => none) (fun _ => none) (fun _ => .error ())
      300 "UCabcdefghijklmnopqrstuv" 1 false
      = .ok [⟨"old", "l1", some "aaa", some 100, "",
              "UCabcdefghijklmnopqrstuv", none⟩,
             ⟨"new", "l2", some "bbb", some 200, "",
              "UCabcdefghijklmnopqrstuv", none⟩] ∧
    ¬ ([⟨"old", "l1", some "aaa", some 100, "",
         "UCabcdefghijklmnopqrstuv", none⟩,
        ⟨"new", "l2", some "bbb", some 200, "",
         "UCabcdefghijklmnopqrstuv", none⟩] : List ChannelVideo).Pairwise
        (fun a b =>
          (b.published_date).getD dtMin ≤ (a.published_date).getD dtMin) := by
  constructor
  · decide
  · intro h
    have := List.rel_of_pairwise_cons h (List.mem_cons_self _ _)
    simp only [Option.getD_some] at this
    omega

theorem dedupGo_filter_key (key : α → String) (u : String) :
    ∀ (seen : List String) (l : List α),
      (dedupGo key seen l).filter (fun a => key a == u)
        = if u ∈ seen then [] else (l.filter fun a => key a == u).take 1
  | seen, [] => by simp [dedupGo]
  | seen, a :: l => by
    rw [dedupGo]
    by_cases hs : key a ∈ seen
    · rw [if_pos hs, dedupGo_filter_key key u seen l]
      by_cases hu : (key a == u) = true
      · have hm : u ∈ seen := eq_of_beq hu ▸ hs
        rw [if_pos hm, if_pos hm]
      · by_cases h2 : u ∈ seen
        · rw [if_pos h2, if_pos h2]
        · rw [if_neg h2, if_neg h2, List.filter_cons, if_neg hu]
    · rw [if_neg hs, List.filter_cons]
      by_cases hu : (key a == u) = true
      · rw [if_pos hu, dedupGo_filter_key key u (key a :: seen) l,
          if_pos (eq_of_beq hu ▸ List.mem_cons_self (key a) seen),
          if_neg (eq_of_beq hu ▸ hs), List.filter_cons, if_pos hu]
        rfl
      · rw [if_neg hu, dedupGo_filter_key key u (key a :: seen) l]
        have hne : u ≠ key a := fun h => hu (h ▸ beq_self_eq_true _)
        by_cases h2 : u ∈ seen
        · rw [if_pos (List.mem_cons_of_mem _ h2), if_pos h2]
        · rw [if_neg (by simp [List.mem_cons, hne, h2]),
            if_neg h2, List.filter_cons, if_neg hu]

theorem dedupGo_keys_distinct (key : α → String) :
    ∀ (seen : List String) (l : List α),
      ((dedupGo key seen l).Pairwise fun a b => key a ≠ key b) ∧
        ∀ a ∈ dedupGo key seen l, key a ∉ seen
  | seen, [] => ⟨List.Pairwise.nil, by simp [dedupGo]⟩
  | seen, a :: l => by
    rw [dedupGo]
    split
    case isTrue h => exact dedupGo_keys_distinct key seen l
    case isFalse h =>
      obtain ⟨hp, hmem⟩ := dedupGo_keys_distinct key (key a :: seen) l
      refine ⟨List.Pairwise.cons ?_ hp, ?_⟩
      · intro b hb hEq
        exact hmem b hb (hEq ▸ List.mem_cons_self _ _)
      · intro b hb
        rcases List.mem_cons.mp hb with rfl | hb
        · exact h
        · exact fun hin => hmem b hb (List.mem_cons_of_mem _ hin)

theorem sorted_dedup_pairwise_ne (key2 : α → Option Int) (key : α → String)
    (l : List α) :
    (sortByDateDesc key2 (dedupByKey key l)).Pairwise
      fun a b => key a ≠ key b := by
  have hp := (dedupGo_keys_distinct key [] l).1
  have hnd : ((dedupByKey key l).map key).Nodup := List.pairwise_map.mpr hp
  have hPerm := ((sortByDateDesc_perm key2 (dedupByKey key l)).map key).symm
  exact List.pairwise_map.mp (hPerm.nodup hnd)

/-- C4 (amended): `AnthropicScraper.get_articles` deduplicates by URL —
no two records of its output share a `url`, and the `seen_urls` pass
keeps exactly the first occurrence of each URL; but
`OpenAIScraper.get_articles` performs no deduplication at all, so two
feed entries with the same URL both appear in its output (see the
counterexample). -/
theorem anthropic_dedup_first_wins (reparse : String → Option Int)
    (fetchFeed : String → Except PyErr (List FeedEntry))
    (now : Int) (hours : Nat) (feeds : Option (List String)) (cap : Nat) :
    (∀ l, anthropic_get_articles reparse fetchFeed now hours feeds cap
        = .ok l →
      l.Pairwise fun a b => a.url ≠ b.url) ∧
    (∀ (l : List AnthropicArticle) (u : String),
      (dedupByKey (fun a => a.url) l).filter (fun a => a.url == u)
        = (l.filter fun a => a.url == u).take 1) := by
  constructor
  · intro l h
    rw [anthropic_get_articles] at h
    injection h with h
    subst h
    exact sorted_dedup_pairwise_ne _ _ _
  · intro l u
    rw [dedupByKey, dedupGo_filter_key, if_neg (List.not_mem_nil u)]

/-- Witness for C4 at an empty Anthropic run. -/
theorem anthropic_dedup_first_wins_witness :
    ([] : List AnthropicArticle).Pairwise (fun a b => a.url ≠ b.url) :=
  (anthropic_dedup_first_wins (fun _ => none)
    (fun _ => .error .requestError) 0 24 (some []) 10).1 [] (by decide)

/-- Counterexample for C4 as stated: OpenAI's adapter keeps both records
with an identical URL. -/
theorem openai_keeps_duplicate_urls :
    openai_get_articles (fun _ => none)
      (.ok [⟨"a", "u", none, none, some 100, none, none⟩,
            ⟨"b", "u", none, none, some 100, none, none⟩]) 100 24 10
      = .ok [⟨"a", "u", some 100, ""⟩, ⟨"b", "u", some 100, ""⟩] ∧
    (⟨"a", "u", some 100, ""⟩ : OpenAIArticle).url
      = (⟨"b", "u", some 100, ""⟩ : OpenAIArticle).url := by
  exact ⟨by decide, rfl⟩

theorem findLang_mem {tracks : List TTrack} {l : String} {t : TTrack}
    (h : findLang tracks l = some t) : t ∈ tracks :=
  List.mem_of_find?_eq_some h

theorem find_transcript_mem {tl : TranscriptList} {t : TTrack} :
    ∀ {ls : List String}, find_transcript tl ls = some t →
      t ∈ tl.manual ∨ t ∈ tl.generated
  | [], h => absurd h (by simp [find_transcript])
  | l :: ls, h => by
    rw [find_transcript] at h
    cases h1 : findLang tl.manual l with
    | some t1 =>
      rw [h1] at h
      exact Or.inl (Option.some.inj h ▸ findLang_mem h1)
    | none =>
      rw [h1] at h
      cases h2 : findLang tl.generated l with
      | some t2 =>
        rw [h2] at h
        exact Or.inr (Option.some.inj h ▸ findLang_mem h2)
      | none =>
        rw [h2] at h
        exact find_transcript_mem h

/-- C7: the transcript selector tries, in order and only on failure of the
previous step, (1) a preferred-language track in preference order,
(2) a manual track among the preferred languages, (3) a generated track
among the preferred languages, (4) the first listed track of any
kind/language — so a lone auto-generated track in a non-preferred
language is returned with its segments joined by single spaces; an
empty listing, a listing failure, or a fetch failure yields `none`,
never an exception. -/
theorem transcript_selector_order (tl : TranscriptList) (langs : List String)
    (g t : TTrack) (segs : List String) (pre rest : List String)
    (l0 : String) :
    (get_video_transcript (.error ()) langs = none) ∧
    (tl.manual = [] → tl.generated = [] →
      get_video_transcript (.ok tl) langs = none) ∧
    (tl.manual = [] → tl.generated = [g] → (∀ l ∈ langs, g.language ≠ l) →
      g.fetchResult = some segs →
      get_video_transcript (.ok tl) langs = some ⟨joinSpace segs⟩) ∧
    (langs = pre ++ l0 :: rest →
      (∀ l ∈ pre, find_transcript tl [l] = none) →
      find_transcript tl [l0] = some t → t.fetchResult = some segs →
      get_video_transcript (.ok tl) langs = some ⟨joinSpace segs⟩) ∧
    (tl.manual = [] → tl.generated = [g] → g.fetchResult = none →
      get_video_transcript (.ok tl) langs = none) := by
  refine ⟨rfl, ?_, ?_, ?_, ?_⟩
  · intro h1 h2
    obtain ⟨m, gen⟩ := tl
    simp only at h1 h2
    subst h1
    subst h2
    have ha : langs.findSome? (fun _ => (none : Option TTrack)) = none :=
      List.findSome?_eq_none_iff.mpr fun _ _ => rfl
    have hb : langs.findSome? (findLang ([] : List TTrack)) = none :=
      List.findSome?_eq_none_iff.mpr fun _ _ => rfl
    simp [get_video_transcript, find_transcript, find_manually_created,
      find_generated, findLang, listAllTracks, ha, hb]
  · intro h1 h2 hl hf
    obtain ⟨m, gen⟩ := tl
    simp only at h1 h2
    subst h1
    subst h2
    have hs1 : (langs.findSome? fun l =>
        find_transcript ⟨[], [g]⟩ [l]) = none := by
      rw [List.findSome?_eq_none_iff]
      intro l hl'
      simp [find_transcript, findLang, List.find?,
        beq_eq_false_iff_ne.mpr (hl l hl')]
    have hs3 : (find_generated ⟨[], [g]⟩ langs) = none := by
      rw [find_generated, List.findSome?_eq_none_iff]
      intro l hl'
      simp [findLang, List.find?, beq_eq_false_iff_ne.mpr (hl l hl')]
    have hb : langs.findSome? (findLang ([] : List TTrack)) = none :=
      List.findSome?_eq_none_iff.mpr fun _ _ => rfl
    simp [get_video_transcript, hs1, hs3, find_manually_created, findLang,
      listAllTracks, hb, hf]
  · intro hlangs hpre hfind hfetch
    subst hlangs
    have hs1 : ((pre ++ l0 :: rest).findSome? fun l =>
        find_transcript tl [l]) = some t := by
      rw [List.findSome?_append, List.findSome?_eq_none_iff.mpr hpre]
      simp [List.findSome?_cons, hfind]
    simp [get_video_transcript, hs1, hfetch]
  · intro h1 h2 hfetch
    obtain ⟨m, gen⟩ := tl
    simp only at h1 h2
    subst h1
    subst h2
    have hman : (find_manually_created ⟨[], [g]⟩ langs) = none := by
      rw [find_manually_created, List.findSome?_eq_none_iff]
      intro l _
      rfl
    cases hs1 : (langs.findSome? fun l =>
        find_transcript ⟨[], [g]⟩ [l]) with
    | some t1 =>
      obtain ⟨l, _, hft⟩ := List.exists_of_findSome?_eq_some hs1
      have : t1 ∈ ([] : List TTrack) ∨ t1 ∈ [g] := find_transcript_mem hft
      have ht1 : t1 = g := by
        rcases this with h | h
        · exact absurd h (List.not_mem_nil t1)
        · exact List.mem_singleton.mp h
      subst ht1
      simp [get_video_transcript, hs1, hfetch]
    | none =>
      cases hs3 : (find_generated ⟨[], [g]⟩ langs) with
      | some t3 =>
        obtain ⟨l, _, hft⟩ := List.exists_of_findSome?_eq_some hs3
        have ht3 : t3 = g := List.mem_singleton.mp (findLang_mem hft)
        subst ht3
        simp [get_video_transcript, hs1, hman, hs3, hfetch]
      | none =>
        simp [get_video_transcript, hs1, hman, hs3, listAllTracks, hfetch]

/-- Witness for C7: the only available track is an auto-generated French
one while English is preferred; the selector returns its flattened
text. -/
theorem transcript_selector_order_witness :
    get_video_transcript
      (.ok ⟨[], [⟨"fr", true, some ["bonjour", "le", "monde"]⟩]⟩) ["en"]
      = some ⟨"bonjour le monde"⟩ :=
  (transcript_selector_order ⟨[], [⟨"fr", true, some ["bonjour", "le", "monde"]⟩]⟩
    ["en"] ⟨"fr", true, some ["bonjour", "le", "monde"]⟩
    ⟨"fr", true, some ["bonjour", "le", "monde"]⟩
    ["bonjour", "le", "monde"] [] [] "").2.2.1 rfl rfl (by decide) rfl

/-- C9: with `include_transcripts=True`, `get_latest_videos` returns
exactly the time-filtered records passed through the transcript
attachment: every output record agrees with the corresponding filtered
record on `title`, `link`, `video_id`, `published_date`, `description`
and `channel_id` (only `transcript` may change), and a record whose
`video_id` is absent passes through entirely unchanged. -/
theorem get_latest_videos_transcript_frame
    (fetchPage : String → Except Unit String)
    (fetchFeed : String → Except PyErr (List YtEntry))
    (rfc822 iso : String → Option Int)
    (listBackend : String → Except Unit TranscriptList)
    (now : Int) (s : String) (hours : Nat) (r : List ChannelVideo)
    (h : get_latest_videos fetchPage fetchFeed rfc822 iso listBackend now s
      hours false = .ok r) :
    (get_latest_videos fetchPage fetchFeed rfc822 iso listBackend now s hours
      true = .ok (attachTranscripts
        (fun vid => get_video_transcript (listBackend vid) ["en"]) r)) ∧
    ∀ (getT : String → Option Transcript) (videos : List ChannelVideo)
      (i : Nat) (h1 : i < videos.length)
      (h2 : i < (attachTranscripts getT videos).length),
      (((attachTranscripts getT videos).get ⟨i, h2⟩).title
          = (videos.get ⟨i, h1⟩).title ∧
        ((attachTranscripts getT videos).get ⟨i, h2⟩).link
          = (videos.get ⟨i, h1⟩).link ∧
        ((attachTranscripts getT videos).get ⟨i, h2⟩).video_id
          = (videos.get ⟨i, h1⟩).video_id ∧
        ((attachTranscripts getT videos).get ⟨i, h2⟩).published_date
          = (videos.get ⟨i, h1⟩).published_date ∧
        ((attachTranscripts getT videos).get ⟨i, h2⟩).description
          = (videos.get ⟨i, h1⟩).description ∧
        ((attachTranscripts getT videos).get ⟨i, h2⟩).channel_id
          = (videos.get ⟨i, h1⟩).channel_id) ∧
      ((videos.get ⟨i, h1⟩).video_id = none →
        (attachTranscripts getT videos).get ⟨i, h2⟩ = videos.get ⟨i, h1⟩) := by
  constructor
  · cases hex : extract_channel_id fetchPage s with
    | error e =>
      rw [get_latest_videos, hex] at h
      exact absurd h (by simp)
    | ok cid =>
      cases cid with
      | none =>
        rw [get_latest_videos, hex] at h
        injection h with h
        subst h
        rw [get_latest_videos, hex]
        rfl
      | some c =>
        rw [get_latest_videos, hex] at h
        rw [get_latest_videos, hex]
        by_cases hc : c = ""
        · simp only [if_pos hc, eq_self_iff_true, if_true] at h ⊢
          injection h with h
          subst h
          rfl
        · simp only [if_neg hc, Bool.false_eq_true, if_false] at h
          simp only [if_neg hc, eq_self_iff_true, if_true]
          injection h with h
          rw [h]
  · intro getT videos i h1 h2
    have hget : (attachTranscripts getT videos).get ⟨i, h2⟩
        = (fun v => match v.video_id with
            | some vid =>
              if vid = "" then v else { v with transcript := getT vid }
            | none => v) (videos.get ⟨i, h1⟩) := by
      simp only [attachTranscripts, List.get_eq_getElem, List.getElem_map]
    rw [hget]
    generalize (videos.get ⟨i, h1⟩) = v
    cases hv : v.video_id with
    | none =>
      simp [hv]
    | some vid =>
      by_cases hv0 : vid = ""
      · simp [hv, hv0]
      · simp [hv, hv0]

/-- Witness for C9 at a one-video feed. -/
theorem get_latest_videos_transcript_frame_witness :
    get_latest_videos (fun _ => .error ())
      (fun _ => .ok [⟨"t", "l", some "vid", .structTime 100, none⟩])
      (fun _ => none) (fun _ => none) (fun _ => .error ())
      100 "UCabcdefghijklmnopqrstuv" 24 true
      = .ok (attachTranscripts
          (fun vid => get_video_transcript (.error ()) ["en"])
          [⟨"t", "l", some "vid", some 100, "",
            "UCabcdefghijklmnopqrstuv", none⟩]) :=
  (get_latest_videos_transcript_frame (fun _ => .error ())
    (fun _ => .ok [⟨"t", "l", some "vid", .structTime 100, none⟩])
    (fun _ => none) (fun _ => none) (fun _ => .error ())
    100 "UCabcdefghijklmnopqrstuv" 24
    [⟨"t", "l", some "vid", some 100, "",
      "UCabcdefghijklmnopqrstuv", none⟩] (by decide)).1

theorem stringMk_data : ∀ (s : String), String.mk s.data = s
  | ⟨_⟩ => rfl

/-- C8: the channel identity resolver returns a canonical-shaped id
(`UC` + 22 characters of `[A-Za-z0-9_-]`) unchanged; extracts that same
id from a channel URL embedding it after `/channel/`; and returns
`none` for a handle whose page fetch fails or whose page matches
neither channel-id embedding pattern. -/
theorem channel_identity_resolution (fetchPage : String → Except Unit String)
    (s id hdl page : String) :
    (isCanonicalId s = true → extract_channel_id fetchPage s = .ok (some s)) ∧
    (isCanonicalId id = true →
      extract_channel_id fetchPage ("https://www.youtube.com/channel/" ++ id)
        = .ok (some id)) ∧
    (fetchPage ("https://www.youtube.com/@" ++ hdl) = .error () →
      resolve_handle_to_channel_id fetchPage hdl = none) ∧
    (fetchPage ("https://www.youtube.com/@" ++ hdl) = .ok page →
      searchCaptureTerm ("\"channelId\":\"".data) (fun c => c ≠ '"') '"'
        page.data = none →
      searchCaptureTerm
        ("<link rel=\"canonical\" href=\"https://www.youtube.com/channel/".data)
        (fun c => c ≠ '"') '"' page.data = none →
      resolve_handle_to_channel_id fetchPage hdl = none) ∧
    (s.data.contains '@' = true → isCanonicalId s = false →
      containsSub "youtube.com/channel/".data s.data = false →
      containsSub "youtube.com/@".data s.data = false →
      (∀ u, fetchPage u = .error ()) →
      extract_channel_id fetchPage s = .ok none) := by
  refine ⟨?_, ?_, ?_, ?_, ?_⟩
  · intro hc
    rw [extract_channel_id, if_pos hc]
  · intro hc
    have e1 : isCanonicalId ("https://www.youtube.com/channel/" ++ id)
        = false := rfl
    have e2 : containsSub "youtube.com/channel/".data
        ("https://www.youtube.com/channel/" ++ id).data = true := rfl
    rw [isCanonicalId] at hc
    split at hc
    case h_2 => exact absurd hc (by simp)
    case h_1 rest heq =>
      have hdata : ("https://www.youtube.com/channel/" ++ id).data
          = "https://www.youtube.com/channel/".data ++ 'U' :: 'C' :: rest := by
        rw [show ("https://www.youtube.com/channel/" ++ id).data
          = "https://www.youtube.com/channel/".data ++ id.data from rfl, heq]
      have e3 : searchCapture "/channel/".data isIdChar
          ("https://www.youtube.com/channel/" ++ id).data
          = some (('U' :: 'C' :: rest).takeWhile isIdChar) := by
        rw [hdata]
        rfl
      have e4 : ('U' :: 'C' :: rest).takeWhile isIdChar
          = 'U' :: 'C' :: rest := by
        refine takeWhile_all ?_
        have hall : rest.all isIdChar = true := by
          have h2 := hc
          simp only [Bool.and_eq_true] at h2
          exact h2.2
        simp only [List.all_cons, Bool.and_eq_true]
        exact ⟨rfl, rfl, hall⟩
      rw [extract_channel_id, if_neg (by simp [e1]), if_pos e2, e3, e4]
      rw [show ('U' : Char) :: 'C' :: rest = id.data from heq.symm]
  · intro hf
    rw [resolve_handle_to_channel_id, hf]
  · intro hp h1 h2
    rw [resolve_handle_to_channel_id, hp]
    simp only [h1, h2]
  · intro hat hcan hch hcat hferr
    rw [extract_channel_id, if_neg (by simp [hcan]), if_neg (by simp [hch]),
      extractAtBranch, if_pos hat, if_neg (by simp [hcat]),
      resolve_handle_to_channel_id, hferr]

/-- Witness for C8 at a concrete canonical id and a concrete failing
handle fetch. -/
theorem channel_identity_resolution_witness :
    extract_channel_id (fun _ => .error ()) "UCabcdefghijklmnopqrstuv"
      = .ok (some "UCabcdefghijklmnopqrstuv") ∧
    extract_channel_id (fun _ => .error ())
      "https://www.youtube.com/channel/UCabcdefghijklmnopqrstuv"
      = .ok (some "UCabcdefghijklmnopqrstuv") ∧
    extract_channel_id (fun _ => .error ()) "@somehandle" = .ok none :=
  ⟨(channel_identity_resolution (fun _ => .error ())
      "UCabcdefghijklmnopqrstuv" "x" "x" "x").1 (by decide),
   (channel_identity_resolution (fun _ => .error ())
      "x" "UCabcdefghijklmnopqrstuv" "x" "x").2.1 (by decide),
   (channel_identity_resolution (fun _ => .error ())
      "@somehandle" "x" "x" "x").2.2.2.2 (by decide) (by decide) (by decide)
      (by decide) (fun _ => rfl)⟩

end NewsAgg
